import Mathlib

/-!
Verification of the onkey piano-tuner core against its specification.

The Rust source is shallowly embedded: `f32` values are modelled as exact
rationals (`ℚ`) for the state machines and the YIN pitch detector, and as
real numbers (`ℝ`) for the logarithmic/exponential temperament formulas.
One divergence from IEEE semantics worth noting: division by zero yields
`0` in `ℚ`/`ℝ` where `f32` yields `±∞`; every claim settled below is
robust to this (the affected value is in either case not a positive
finite frequency).
-/

/-! ## StretchCurve (src/tuning/stretch.rs) -/

namespace StretchCurve

/-- Rust `f32::signum`: `1.0` for non-negative values (including `+0.0`),
`-1.0` for negative values. -/
def rustSignum (q : ℚ) : ℚ :=
  if q < 0 then -1 else 1

/-- Rust `StretchCurve::calculate_stretch`: cubic-style stretch for one note,
`20.0 * x * x * x.signum()` with `x = (midi - 60) / 44`. -/
def calculate_stretch (midi : ℕ) : ℚ :=
  let center : ℚ := 60
  let range : ℚ := 44
  let x : ℚ := ((midi : ℚ) - center) / range
  20 * x * x * rustSignum x

/-- Rust `StretchCurve::generate_railsback_curve`: the 88-entry offsets table,
index `i` holding `calculate_stretch (i + 21)`. -/
def generate_railsback_curve : List ℚ :=
  (List.range 88).map (fun i => calculate_stretch (i + 21))

/-- The `offsets` field of `StretchCurve::new()`. -/
def offsets : List ℚ := generate_railsback_curve

/-- Rust `StretchCurve::offset_cents`: `0` outside MIDI `[21, 108]`, otherwise
the table entry at `midi - 21`. -/
def offset_cents (midi : ℕ) : ℚ :=
  if 21 ≤ midi ∧ midi ≤ 108 then offsets.getD (midi - 21) 0 else 0

/-- Rust `StretchCurve::offset_cents_by_index`: table entry, or `0` out of bounds. -/
def offset_cents_by_index (index : ℕ) : ℚ :=
  offsets.getD index 0

/-- The formula the spec states for the in-range stretch offset, written
from the spec's words (`20 * x³ * sign(x)` with `sign 0 = 0`), to be
compared with the source's `calculate_stretch`. -/
def specStretchOffset (midi : ℕ) : ℚ :=
  let x : ℚ := ((midi : ℚ) - 60) / 44
  20 * x ^ 3 * (if x < 0 then -1 else if x = 0 then 0 else 1)

/-- The spec's alternative rendering `20 * |x|² * x` of the same claimed
formula. -/
def specStretchOffsetAlt (midi : ℕ) : ℚ :=
  let x : ℚ := ((midi : ℚ) - 60) / 44
  20 * |x| ^ 2 * x

theorem offsets_getD {i : ℕ} (h : i < 88) :
    offsets.getD i 0 = calculate_stretch (i + 21) := by
  simp only [offsets, generate_railsback_curve]
  rw [List.getD_eq_getElem?_getD, List.getElem?_map, List.getElem?_range h]
  rfl

theorem offset_cents_eq_calculate {m : ℕ} (h1 : 21 ≤ m) (h2 : m ≤ 108) :
    offset_cents m = calculate_stretch m := by
  have hidx : m - 21 < 88 := by omega
  have hm : (m - 21) + 21 = m := by omega
  rw [offset_cents, if_pos ⟨h1, h2⟩, offsets_getD hidx, hm]

theorem calculate_stretch_eq (m : ℕ) :
    calculate_stretch m =
      20 * (((m : ℚ) - 60) / 44) * |((m : ℚ) - 60) / 44| := by
  rw [calculate_stretch]
  set x : ℚ := ((m : ℚ) - 60) / 44 with hx
  rcases lt_or_le x 0 with hneg | hpos
  · rw [rustSignum, if_pos hneg, abs_of_neg hneg]; ring
  · rw [rustSignum, if_neg (not_lt.mpr hpos), abs_of_nonneg hpos]; ring

theorem mul_abs_le_mul_abs {x y : ℚ} (h : x ≤ y) : x * |x| ≤ y * |y| := by
  rcases le_total 0 x with hx | hx
  · rw [abs_of_nonneg hx, abs_of_nonneg (le_trans hx h)]
    nlinarith
  · rw [abs_of_nonpos hx]
    rcases le_total 0 y with hy | hy
    · rw [abs_of_nonneg hy]; nlinarith
    · rw [abs_of_nonpos hy]; nlinarith

end StretchCurve

/-- C2 (counterexample). At MIDI 82 the normalized position is `x = 1/2`;
the code's offset is `20 · x² = 5` cents while the spec's claimed cubic
`20 · x³ · sign(x)` (in either of the spec's renderings) gives `5/2`
cents, so the claimed closed form is wrong for the code. -/
theorem stretch_cubic_formula_counterexample :
    StretchCurve.offset_cents 82 = 5 ∧
    StretchCurve.specStretchOffset 82 = 5 / 2 ∧
    StretchCurve.specStretchOffsetAlt 82 = 5 / 2 ∧
    StretchCurve.offset_cents 82 ≠ StretchCurve.specStretchOffset 82 ∧
    StretchCurve.offset_cents 82 ≠ StretchCurve.specStretchOffsetAlt 82 := by
  have h5 : StretchCurve.offset_cents 82 = 5 := by
    rw [StretchCurve.offset_cents_eq_calculate (by norm_num) (by norm_num),
      StretchCurve.calculate_stretch_eq]
    norm_num [abs_of_nonneg]
  have ha : StretchCurve.specStretchOffset 82 = 5 / 2 := by
    rw [StretchCurve.specStretchOffset]
    norm_num
  have hb : StretchCurve.specStretchOffsetAlt 82 = 5 / 2 := by
    rw [StretchCurve.specStretchOffsetAlt]
    rw [show |(((82 : ℕ) : ℚ) - 60) / 44| = 1 / 2 by norm_num [abs_of_nonneg]]
    norm_num
  exact ⟨h5, ha, hb, by rw [h5, ha]; norm_num, by rw [h5, hb]; norm_num⟩

/-- C2 (amended). For every MIDI note number `m` (the code takes a `u8`),
the stretch-curve offset is `0` outside `[21, 108]`, and inside that range
equals `20 · x² · sign x = 20 · x · |x|` cents where `x = (m - 60)/44`
(a quadratic-magnitude curve, not the cubic the spec states). -/
theorem offset_cents_closed_form (m : ℕ) :
    (m < 21 ∨ 108 < m → StretchCurve.offset_cents m = 0) ∧
    (21 ≤ m → m ≤ 108 →
      StretchCurve.offset_cents m =
        20 * (((m : ℚ) - 60) / 44) * |((m : ℚ) - 60) / 44|) := by
  constructor
  · intro h
    have : ¬ (21 ≤ m ∧ m ≤ 108) := by omega
    simp [StretchCurve.offset_cents, this]
  · intro h1 h2
    rw [StretchCurve.offset_cents_eq_calculate h1 h2,
      StretchCurve.calculate_stretch_eq]

/-- C2 witness: at MIDI 82 (in range, `x = 1/2`) the amended closed form
gives `5` cents, and at MIDI 10 (out of range) the offset is `0`. -/
theorem offset_cents_closed_form_witness :
    (10 < 21 ∨ 108 < 10) ∧ StretchCurve.offset_cents 10 = 0 ∧
    (21 ≤ 82 ∧ 82 ≤ 108) ∧
    StretchCurve.offset_cents 82 =
      20 * (((82 : ℕ) : ℚ) - 60) / 44 * |(((82 : ℕ) : ℚ) - 60) / 44| := by
  refine ⟨Or.inl (by norm_num),
    (offset_cents_closed_form 10).1 (Or.inl (by norm_num)),
    ⟨by norm_num, by norm_num⟩, ?_⟩
  have h := (offset_cents_closed_form 82).2 (by norm_num) (by norm_num)
  rw [h]; ring

/-- C5. The generated 88-entry stretch table is monotonically
non-decreasing across the full key index range 0..87; the value at MIDI
60 is within 3 cents of 0; the value at MIDI 21 lies in `[-25, -10]`
cents; and the value at MIDI 108 lies in `[10, 25]` cents. -/
theorem stretch_curve_monotone_and_bounds :
    List.Chain' (fun a b => a ≤ b) StretchCurve.offsets ∧
    |StretchCurve.offset_cents 60| ≤ 3 ∧
    (-25 ≤ StretchCurve.offset_cents 21 ∧ StretchCurve.offset_cents 21 ≤ -10) ∧
    (10 ≤ StretchCurve.offset_cents 108 ∧ StretchCurve.offset_cents 108 ≤ 25) := by
  have hval : ∀ m : ℕ, 21 ≤ m → m ≤ 108 →
      StretchCurve.offset_cents m =
        20 * (((m : ℚ) - 60) / 44) * |((m : ℚ) - 60) / 44| := by
    intro m h1 h2
    rw [StretchCurve.offset_cents_eq_calculate h1 h2,
      StretchCurve.calculate_stretch_eq]
  refine ⟨?_, ?_, ?_, ?_⟩
  · rw [StretchCurve.offsets, StretchCurve.generate_railsback_curve,
      List.chain'_map]
    rw [show (88 : ℕ) = 87 + 1 from rfl, List.chain'_range_succ]
    intro i _
    rw [StretchCurve.calculate_stretch_eq, StretchCurve.calculate_stretch_eq]
    have h44 : (0 : ℚ) < 44 := by norm_num
    have hx : (((i + 21 : ℕ) : ℚ) - 60) / 44 ≤ (((i + 1 + 21 : ℕ) : ℚ) - 60) / 44 := by
      rw [div_le_div_iff₀ h44 h44]
      push_cast
      nlinarith
    have := StretchCurve.mul_abs_le_mul_abs hx
    nlinarith [this]
  · rw [hval 60 (by norm_num) (by norm_num)]
    have h0 : (((60 : ℕ) : ℚ) - 60) / 44 = 0 := by push_cast; norm_num
    rw [h0]
    norm_num
  · rw [hval 21 (by norm_num) (by norm_num)]
    have h21 : (((21 : ℕ) : ℚ) - 60) / 44 = -(39 / 44) := by push_cast; norm_num
    rw [h21, abs_neg, abs_of_nonneg (by norm_num : (0 : ℚ) ≤ 39 / 44)]
    constructor <;> norm_num
  · rw [hval 108 (by norm_num) (by norm_num)]
    have h108 : (((108 : ℕ) : ℚ) - 60) / 44 = 12 / 11 := by push_cast; norm_num
    rw [h108, abs_of_nonneg (by norm_num : (0 : ℚ) ≤ 12 / 11)]
    constructor <;> norm_num

/-! ## Temperament (src/tuning/temperament.rs)

The equal-temperament formulas use `powf`/`log2`, modelled over `ℝ` with
`Real.rpow` and `Real.logb 2`. -/

noncomputable section

namespace Temperament

/-- Rust `Temperament::frequency`: `a4 * 2^((midi - 69) / 12)`. -/
def frequency (a4_freq : ℝ) (midi_note : ℕ) : ℝ :=
  a4_freq * (2 : ℝ) ^ (((midi_note : ℝ) - 69) / 12)

/-- Rust `Temperament::cents_from_target`: `1200 * log2(frequency / target)`. -/
def cents_from_target (frequency target : ℝ) : ℝ :=
  1200 * Real.logb 2 (frequency / target)

/-- Rust `Temperament::cents_to_ratio`: `2^(cents / 1200)`. -/
def cents_to_ratio (cents : ℝ) : ℝ :=
  (2 : ℝ) ^ (cents / 1200)

/-- Rust `Temperament::cents_to_frequency`: `target * cents_to_ratio cents`. -/
def cents_to_frequency (target cents : ℝ) : ℝ :=
  target * cents_to_ratio cents

end Temperament

/-- C3. Round-trip law: for every cents value `c` in `[-50, 50]` and
every target frequency `t > 0`, converting `c` to a frequency and back
recovers `c` to within `0.01` cents (in the real-number model the
round-trip is exact). -/
theorem cents_round_trip (c t : ℝ) (hc1 : -50 ≤ c) (hc2 : c ≤ 50) (ht : 0 < t) :
    |Temperament.cents_from_target (Temperament.cents_to_frequency t c) t - c| ≤ 1 / 100 := by
  have hexact :
      Temperament.cents_from_target (Temperament.cents_to_frequency t c) t = c := by
    rw [Temperament.cents_from_target, Temperament.cents_to_frequency,
      Temperament.cents_to_ratio, mul_comm t, mul_div_assoc,
      div_self (ne_of_gt ht), mul_one,
      Real.logb_rpow (by norm_num) (by norm_num)]
    ring
  rw [hexact, sub_self, abs_zero]
  norm_num

/-- C3 witness: the round trip at `c = 25` cents, `t = 440` Hz. -/
theorem cents_round_trip_witness :
    (-50 : ℝ) ≤ 25 ∧ (25 : ℝ) ≤ 50 ∧ (0 : ℝ) < 440 ∧
    |Temperament.cents_from_target (Temperament.cents_to_frequency 440 25) 440 - 25| ≤ 1 / 100 :=
  ⟨by norm_num, by norm_num, by norm_num,
    cents_round_trip 25 440 (by norm_num) (by norm_num) (by norm_num)⟩

/-- C4. For every positive configured A4 reference, `frequency 69` equals
the configured A4 exactly, and for every MIDI number `n` in `[21, 96]` the
octave ratio `frequency (n+12) / frequency n` equals `2` within `1e-4`
relative error (in the real-number model the ratio is exactly `2`). -/
theorem frequency_a4_exact_and_octave_ratio (a4 : ℝ) (n : ℕ)
    (ha : 0 < a4) (h1 : 21 ≤ n) (h2 : n ≤ 96) :
    Temperament.frequency a4 69 = a4 ∧
    |Temperament.frequency a4 (n + 12) / Temperament.frequency a4 n - 2| ≤ 1 / 10000 := by
  constructor
  · rw [Temperament.frequency]
    norm_num
  · have hratio :
        Temperament.frequency a4 (n + 12) / Temperament.frequency a4 n = 2 := by
      rw [Temperament.frequency, Temperament.frequency]
      have hexp : (((n + 12 : ℕ) : ℝ) - 69) / 12 = ((n : ℝ) - 69) / 12 + 1 := by
        push_cast
        ring
      rw [hexp, Real.rpow_add (by norm_num : (0:ℝ) < 2), Real.rpow_one]
      have hpow : (0 : ℝ) < (2 : ℝ) ^ (((n : ℝ) - 69) / 12) :=
        Real.rpow_pos_of_pos (by norm_num) _
      field_simp
      ring
    rw [hratio, sub_self, abs_zero]
    norm_num

/-- C4 witness: A4 reference 440 Hz, octave pair `n = 21`. -/
theorem frequency_a4_exact_and_octave_ratio_witness :
    (0 : ℝ) < 440 ∧ 21 ≤ 21 ∧ 21 ≤ 96 ∧
    (Temperament.frequency 440 69 = 440 ∧
      |Temperament.frequency 440 (21 + 12) / Temperament.frequency 440 21 - 2| ≤ 1 / 10000) :=
  ⟨by norm_num, le_refl 21, by norm_num,
    frequency_a4_exact_and_octave_ratio 440 21 (by norm_num) (le_refl 21) (by norm_num)⟩

end

/-! ## CalibrationScreen (src/ui/screens/calibration.rs) -/

namespace CalibrationScreen

/-- The plausible-A4 acceptance band test `(400.0..=480.0).contains(&freq)`. -/
def inBand (freq : ℚ) : Bool :=
  decide (400 ≤ freq ∧ freq ≤ 480)

/-- State of `CalibrationScreen` (render-only fields omitted). -/
structure State where
  samples : List ℚ
  target_samples : ℕ
  current_freq : Option ℚ
  listening : Bool
  deriving DecidableEq

/-- Rust `CalibrationScreen::new()`. -/
def new : State :=
  { samples := [], target_samples := 10, current_freq := none, listening := true }

/-- Rust `CalibrationScreen::update`: accept a detected frequency only when it
lies in the 400–480 Hz band, pushing it onto `samples`. -/
def update (s : State) (freq : ℚ) : State :=
  if inBand freq then
    { s with current_freq := some freq, samples := s.samples ++ [freq] }
  else s

/-- Rust `CalibrationScreen::clear`. -/
def clear (s : State) : State :=
  { s with current_freq := none }

/-- Rust `CalibrationScreen::is_complete`: `samples.len() >= target_samples`. -/
def is_complete (s : State) : Bool :=
  decide (s.target_samples ≤ s.samples.length)

/-- Rust `CalibrationScreen::result`: `None` when no samples were accepted,
otherwise the arithmetic mean of the accepted samples. -/
def result (s : State) : Option ℚ :=
  if s.samples = [] then none
  else some (s.samples.sum / (s.samples.length : ℚ))

/-- Feeding detected frequencies one at a time. -/
def runUpdates (s : State) (freqs : List ℚ) : State :=
  freqs.foldl update s

theorem runUpdates_cons (s : State) (f : ℚ) (rest : List ℚ) :
    runUpdates s (f :: rest) = runUpdates (update s f) rest := rfl

theorem runUpdates_samples (freqs : List ℚ) :
    ∀ s : State, (runUpdates s freqs).samples = s.samples ++ freqs.filter inBand := by
  induction freqs with
  | nil => intro s; simp [runUpdates]
  | cons f rest ih =>
    intro s
    rw [runUpdates_cons, ih]
    by_cases hf : inBand f
    · simp [update, if_pos hf, List.filter_cons, hf]
    · simp [update, if_neg hf, List.filter_cons, hf]

theorem runUpdates_target (freqs : List ℚ) :
    ∀ s : State, (runUpdates s freqs).target_samples = s.target_samples := by
  induction freqs with
  | nil => intro s; simp [runUpdates]
  | cons f rest ih =>
    intro s
    rw [runUpdates_cons, ih]
    by_cases hf : inBand f
    · simp [update, if_pos hf]
    · simp [update, if_neg hf]

end CalibrationScreen

/-- C6. Feeding any sequence of frequency samples one at a time to a
fresh calibrator: samples outside the 400-480 Hz band are rejected and do
not count, the accepted samples being exactly the in-band inputs in
order; calibration is complete exactly when the accepted-sample count has
reached the target of 10; and the result is `none` when no samples were
accepted, otherwise the arithmetic mean of the accepted samples. -/
theorem calibrator_run_spec (freqs : List ℚ) :
    (CalibrationScreen.runUpdates CalibrationScreen.new freqs).samples =
      freqs.filter CalibrationScreen.inBand ∧
    (CalibrationScreen.is_complete
        (CalibrationScreen.runUpdates CalibrationScreen.new freqs) = true ↔
      10 ≤ (freqs.filter CalibrationScreen.inBand).length) ∧
    CalibrationScreen.result (CalibrationScreen.runUpdates CalibrationScreen.new freqs) =
      (if freqs.filter CalibrationScreen.inBand = [] then none
       else some ((freqs.filter CalibrationScreen.inBand).sum /
         ((freqs.filter CalibrationScreen.inBand).length : ℚ))) := by
  have hs : (CalibrationScreen.runUpdates CalibrationScreen.new freqs).samples =
      freqs.filter CalibrationScreen.inBand := by
    rw [CalibrationScreen.runUpdates_samples freqs CalibrationScreen.new]
    simp [CalibrationScreen.new]
  have ht := CalibrationScreen.runUpdates_target freqs CalibrationScreen.new
  refine ⟨hs, ?_, ?_⟩
  · rw [CalibrationScreen.is_complete, hs, ht]
    simp [CalibrationScreen.new]
  · rw [CalibrationScreen.result, hs]

/-! ## Notes (src/tuning/notes.rs) -/

/-- Rust `TuningStep` (src/ui/components/instructions.rs). -/
inductive TuningStep where
  | MuteOuter
  | TuneCenter
  | TuneLeft
  | TuneRight
  deriving DecidableEq

/-- Rust `TuningStep::next`. -/
def TuningStep.next : TuningStep → Option TuningStep
  | .MuteOuter => some .TuneCenter
  | .TuneCenter => some .TuneLeft
  | .TuneLeft => some .TuneRight
  | .TuneRight => none

/-- Rust `Note` (src/tuning/notes.rs). -/
structure Note where
  midi : ℕ
  name : String
  octave : ℤ
  strings : ℕ
  deriving DecidableEq

/-- Rust `Note::display_name`: name followed by octave. -/
def Note.display_name (n : Note) : String :=
  n.name ++ toString n.octave

/-- Rust `NOTE_NAMES`: chromatic names starting at A. -/
def NOTE_NAMES : List String :=
  ["A", "A#", "B", "C", "C#", "D", "D#", "E", "F", "F#", "G", "G#"]

/-- Body of the `generate_notes` loop for table index `i`. -/
def mkNote (i : ℕ) : Note :=
  let midi := i + 21
  let octave : ℤ := if i < 3 then 0 else (((i - 3) / 12 : ℕ) : ℤ) + 1
  let strings := if midi ≤ 34 then 1 else if midi ≤ 56 then 2 else 3
  { midi := midi, name := NOTE_NAMES.getD (i % 12) "", octave := octave,
    strings := strings }

/-- Rust `generate_notes` / `NOTES`: the 88-entry note table. -/
def NOTES : List Note :=
  (List.range 88).map mkNote

/-- Rust `note_at` (src/tuning/notes.rs): table lookup by index. -/
def note_at (index : ℕ) : Option Note :=
  NOTES.get? index

/-- Modelled from the spec: `order.rs` is absent from `src/`. The spec
requires `TuningOrder::note_at` to traverse all 88 notes, each exactly
once, with the concrete policy left open; it is modelled as the chromatic
traversal given by the note table. No claim settled here depends on the
traversal policy. -/
def TuningOrder.note_at (index : ℕ) : Option Note :=
  NOTES.get? index

/-! ## TuningScreen (src/ui/screens/tuning.rs) -/

/-- State of `TuningScreen` (the display-only `phase_name` is omitted). -/
structure TuningScreen where
  note_name : String
  note_index : ℕ
  total_notes : ℕ
  target_freq : ℚ
  detected_freq : Option ℚ
  cents_deviation : ℚ
  string_count : ℕ
  tuning_step : Option TuningStep
  deriving DecidableEq

namespace TuningScreen

/-- Rust `TuningScreen::new`. -/
def new (note_name : String) (note_index total_notes : ℕ) (target_freq : ℚ)
    (string_count : ℕ) : TuningScreen :=
  { note_name := note_name, note_index := note_index, total_notes := total_notes,
    target_freq := target_freq, detected_freq := none, cents_deviation := 0,
    string_count := string_count,
    tuning_step := if string_count = 3 then some TuningStep.MuteOuter else none }

/-- Rust `TuningScreen::update`: record a detected pitch and its deviation. -/
def update (s : TuningScreen) (freq cents : ℚ) : TuningScreen :=
  { s with detected_freq := some freq, cents_deviation := cents }

/-- Rust `TuningScreen::clear`. -/
def clear (s : TuningScreen) : TuningScreen :=
  { s with detected_freq := none, cents_deviation := 0 }

/-- Rust `TuningScreen::cents`. -/
def cents (s : TuningScreen) : ℚ :=
  s.cents_deviation

/-- Rust `TuningScreen::is_trichord`. -/
def is_trichord (s : TuningScreen) : Bool :=
  decide (s.string_count = 3)

/-- Rust `TuningScreen::next_step`: advance the trichord sub-step; the Bool is
the Rust return value (`true` iff a next step existed). -/
def next_step (s : TuningScreen) : TuningScreen × Bool :=
  match s.tuning_step with
  | some step =>
    match step.next with
    | some nxt => ({ s with tuning_step := some nxt }, true)
    | none => (s, false)
  | none => (s, false)

/-- Rust `TuningScreen::is_complete`: terminal-step, tolerance and
live-detection test. -/
def is_complete (s : TuningScreen) : Bool :=
  if s.string_count = 3 then
    decide (s.tuning_step = some TuningStep.TuneRight) &&
      decide (|s.cents_deviation| ≤ 5) && s.detected_freq.isSome
  else
    decide (|s.cents_deviation| ≤ 5) && s.detected_freq.isSome

end TuningScreen

/-! ## App (src/ui/app.rs), Tuning-state fragment -/

/-- Rust `CompletedNote` (src/tuning/session.rs, absent from `src/`): modelled
from the spec as the immutable record of a note's display name and final
cents deviation. -/
structure CompletedNote where
  note_name : String
  cents : ℚ
  deriving DecidableEq

/-- Modelled from the spec: `session.rs` is absent from `src/`; per the
spec, `Session::complete_note` appends one `CompletedNote` to the
session's ordered append-only list. -/
def Session.complete_note (completed : List CompletedNote) (name : String)
    (cents : ℚ) : List CompletedNote :=
  completed ++ [{ note_name := name, cents := cents }]

/-- The fields of `App` that the Tuning-state key handlers touch:
the tuning screen, the session's completed-note list, and the current
index into the tuning order. Persistence (`session.save()`), the
reference-tone flag and the screen-state enum are not modelled. -/
structure App where
  tuning : Option TuningScreen
  completed_notes : List CompletedNote
  current_note_idx : ℕ
  deriving DecidableEq

namespace App

/-- Rust `App::setup_current_note`. The real code passes
`temperament.frequency(note.midi)` (an `f32` the claims never read) as
the target frequency; the ℚ-valued model passes `0`. Index 88 and a
failed lookup leave the modelled fields unchanged (the code switches to
the Complete screen, which is not modelled). -/
def setup_current_note (a : App) : App :=
  if 88 ≤ a.current_note_idx then a
  else
    match TuningOrder.note_at a.current_note_idx with
    | some note =>
      { a with tuning := some (TuningScreen.new note.display_name
          a.current_note_idx 88 0 note.strings) }
    | none => a

/-- Rust `App::advance_to_next_note`: increment the index, then either finish
(index 88) or set up the next note's screen. -/
def advance_to_next_note (a : App) : App :=
  let a2 := { a with current_note_idx := a.current_note_idx + 1 }
  if 88 ≤ a2.current_note_idx then a2
  else setup_current_note a2

/-- Rust `App::confirm_note`: for a trichord, a successful `next_step` just
advances the sub-step; otherwise a `CompletedNote` with the screen's
current cents deviation is recorded and the app advances. Note that
`TuningScreen::is_complete` is never consulted. -/
def confirm_note (a : App) : App :=
  match a.tuning with
  | none => a
  | some t =>
    if t.is_trichord && (t.next_step).2 then
      { a with tuning := some (t.next_step).1 }
    else
      let completed :=
        match TuningOrder.note_at a.current_note_idx with
        | some note => Session.complete_note a.completed_notes note.display_name t.cents
        | none => a.completed_notes
      advance_to_next_note { a with completed_notes := completed }

/-- Rust `App::skip_note`: record the current note as completed with 0 cents
deviation and advance. (In the Tuning state the session always exists.) -/
def skip_note (a : App) : App :=
  let completed :=
    match TuningOrder.note_at a.current_note_idx with
    | some note => Session.complete_note a.completed_notes note.display_name 0
    | none => a.completed_notes
  advance_to_next_note { a with completed_notes := completed }

end App

theorem App.setup_preserves (a : App) :
    (App.setup_current_note a).completed_notes = a.completed_notes ∧
    (App.setup_current_note a).current_note_idx = a.current_note_idx := by
  rw [App.setup_current_note]
  split
  · exact ⟨rfl, rfl⟩
  · split <;> exact ⟨rfl, rfl⟩

theorem App.advance_props (a : App) :
    (App.advance_to_next_note a).completed_notes = a.completed_notes ∧
    (App.advance_to_next_note a).current_note_idx = a.current_note_idx + 1 := by
  rw [App.advance_to_next_note]
  split
  · exact ⟨rfl, rfl⟩
  · exact ⟨(App.setup_preserves _).1, (App.setup_preserves _).2⟩

theorem note_at_of_lt {i : ℕ} (h : i < 88) :
    TuningOrder.note_at i = some (mkNote i) := by
  rw [TuningOrder.note_at, NOTES, List.get?_eq_getElem?, List.getElem?_map,
    List.getElem?_range h]
  rfl

/-- C10. For every app state in the Tuning screen with a current note
(index < 88) — whatever the note's string count and whatever unison
sub-step progress its screen holds — `skip_note` appends exactly one
`CompletedNote` with cents deviation `0` and advances the tuning-order
index by one. -/
theorem skip_note_appends_zero_and_advances (a : App)
    (h : a.current_note_idx < 88) :
    (∃ name, (App.skip_note a).completed_notes =
      a.completed_notes ++ [{ note_name := name, cents := 0 }]) ∧
    (App.skip_note a).current_note_idx = a.current_note_idx + 1 := by
  have hskip : App.skip_note a =
      App.advance_to_next_note { a with completed_notes :=
        (Session.complete_note a.completed_notes (mkNote a.current_note_idx).display_name 0) } := by
    rw [App.skip_note, note_at_of_lt h]
  rw [hskip]
  refine ⟨⟨(mkNote a.current_note_idx).display_name, ?_⟩, ?_⟩
  · rw [(App.advance_props _).1]
    rfl
  · rw [(App.advance_props _).2]

/-- C10 witness: skipping from a fresh session at index 0 (note A0, a
single-string note mid-way through no sub-steps) appends one record with
0 cents and moves to index 1. -/
theorem skip_note_appends_zero_and_advances_witness :
    (0 : ℕ) < 88 ∧
    ((∃ name, (App.skip_note
        { tuning := none, completed_notes := [], current_note_idx := 0 }).completed_notes =
        ([] : List CompletedNote) ++ [{ note_name := name, cents := 0 }]) ∧
      (App.skip_note
        { tuning := none, completed_notes := [], current_note_idx := 0 }).current_note_idx =
        0 + 1) :=
  ⟨by norm_num, skip_note_appends_zero_and_advances
    { tuning := none, completed_notes := [], current_note_idx := 0 } (by norm_num)⟩

/-- The app state reached by selecting the trichord note at tuning-order
index 60 (A5, three strings). -/
def appTrichordStart : App :=
  App.setup_current_note
    { tuning := none, completed_notes := [], current_note_idx := 60 }

/-- Three confirmations later: the screen sits at the terminal sub-step
`TuneRight`. -/
def appTrichordAtLastStep : App :=
  App.confirm_note (App.confirm_note (App.confirm_note appTrichordStart))

/-- A live detection 10 cents sharp arrives (as `App::update_pitch` would
apply it via `TuningScreen::update`). -/
def appTrichordOutOfTune : App :=
  { appTrichordAtLastStep with
    tuning := appTrichordAtLastStep.tuning.map (fun t => t.update 445 10) }

/-- C1 (code bug). For the 3-string note A5, after the three sub-step
confirmations and with a live detection 10 cents off target — so the
code's own `TuningScreen::is_complete` is `false` — a fourth confirmation
nevertheless records a `CompletedNote` (with the out-of-tolerance 10-cent
deviation) and advances to the next note: `App::confirm_note` never
consults `is_complete`, so confirming at the final step with
`|deviation| > 5` completes the note, contradicting the claim. -/
theorem confirm_note_records_out_of_tolerance :
    appTrichordOutOfTune.tuning.map TuningScreen.tuning_step =
      some (some TuningStep.TuneRight) ∧
    appTrichordOutOfTune.tuning.map TuningScreen.is_complete = some false ∧
    (App.confirm_note appTrichordOutOfTune).completed_notes =
      [{ note_name := "A5", cents := 10 }] ∧
    (App.confirm_note appTrichordOutOfTune).current_note_idx = 61 := by
  decide

/-! ## PitchDetector (src/audio/pitch.rs)

Samples are `ℚ`-valued. Rust's saturating `f32`-to-`usize` cast maps
negative values to `0` and truncates positive values toward zero. -/

/-- Rust `as usize` on a non-NaN float: saturating truncation. -/
def rustCastUsize (q : ℚ) : ℕ :=
  if q ≤ 0 then 0 else ⌊q⌋.toNat

/-- Rust `PitchResult`. -/
structure PitchResult where
  frequency : ℚ
  confidence : ℚ
  deriving DecidableEq

/-- Rust `PitchDetector` configuration (fields in source order). -/
structure PitchDetector where
  sample_rate : ℕ
  threshold : ℚ
  min_frequency : ℚ
  max_frequency : ℚ
  deriving DecidableEq

namespace PitchDetector

/-- Rust `PitchDetector::new`: defaults A0..C8 with threshold 0.1. -/
def new (sample_rate : ℕ) : PitchDetector :=
  { sample_rate := sample_rate, threshold := 1 / 10,
    min_frequency := 55 / 2, max_frequency := 4186 }

/-- Rust `tau_min` as computed in `detect`. -/
def tau_min (d : PitchDetector) : ℕ :=
  rustCastUsize ((d.sample_rate : ℚ) / d.max_frequency)

/-- Rust `tau_max` as computed in `detect` (`samples.len() / 2` is integer
division, then compared as a float). -/
def tau_max (d : PitchDetector) (samples : List ℚ) : ℕ :=
  rustCastUsize (min ((d.sample_rate : ℚ) / d.min_frequency)
    ((samples.length / 2 : ℕ) : ℚ))

/-- Inner sum of `difference_function` for one lag. -/
def diff_sum (samples : List ℚ) (tau w : ℕ) : ℚ :=
  ((List.range w).map (fun j =>
    let delta := samples.getD j 0 - samples.getD (j + tau) 0
    delta * delta)).sum

/-- Rust `PitchDetector::difference_function`: entry 0 stays `0`, entry `tau`
in `1..=max_tau` sums squared differences over the overlap window
`samples.len() - max_tau`. -/
def difference_function (samples : List ℚ) (max_tau : ℕ) : List ℚ :=
  (List.range (max_tau + 1)).map (fun tau =>
    if tau = 0 then 0 else diff_sum samples tau (samples.length - max_tau))

/-- The `running_sum` accumulator value after processing lags `1..=tau`. -/
def running_sum (diff : List ℚ) (tau : ℕ) : ℚ :=
  ((List.range tau).map (fun k => diff.getD (k + 1) 0)).sum

/-- One entry of the CMND vector. -/
def cmnd_at (diff : List ℚ) (tau : ℕ) : ℚ :=
  if tau = 0 then 1
  else if 0 < running_sum diff tau then
    diff.getD tau 0 * (tau : ℚ) / running_sum diff tau
  else 1

/-- Rust `PitchDetector::cumulative_mean_normalized_difference`. -/
def cumulative_mean_normalized_difference (diff : List ℚ) : List ℚ :=
  (List.range diff.length).map (cmnd_at diff)

/-- First-pass scan of `find_threshold_crossing`: the first lag in the
candidate list whose CMND value is below the threshold. -/
def firstBelow (cmnd : List ℚ) (thr : ℚ) : List ℕ → Option ℕ
  | [] => none
  | t :: rest => if cmnd.getD t 0 < thr then some t else firstBelow cmnd thr rest

/-- Dip-descent loop of `find_threshold_crossing`: keep the running
minimum, stop once a value rises more than `0.01` above it. -/
def dipLoop (cmnd : List ℚ) : List ℕ → ℕ → ℚ → ℕ
  | [], min_tau, _ => min_tau
  | t :: rest, min_tau, min_val =>
    let v := cmnd.getD t 0
    if v < min_val then dipLoop cmnd rest t v
    else if min_val + 1 / 100 < v then min_tau
    else dipLoop cmnd rest min_tau min_val

/-- Fallback loop of `find_threshold_crossing`: global minimum (first
occurrence) over the scanned lags. -/
def argminLoop (cmnd : List ℚ) : List ℕ → ℕ → ℚ → ℕ × ℚ
  | [], min_tau, min_val => (min_tau, min_val)
  | t :: rest, min_tau, min_val =>
    if cmnd.getD t 0 < min_val then argminLoop cmnd rest t (cmnd.getD t 0)
    else argminLoop cmnd rest min_tau min_val

/-- Rust `PitchDetector::find_threshold_crossing`. -/
def find_threshold_crossing (cmnd : List ℚ) (thr : ℚ) (tau_mn tau_mx : ℕ) :
    Option ℕ :=
  match firstBelow cmnd thr (List.range' tau_mn (tau_mx - tau_mn)) with
  | some tau =>
    some (dipLoop cmnd (List.range' (tau + 1) (tau_mx - (tau + 1))) tau
      (cmnd.getD tau 0))
  | none =>
    let p := argminLoop cmnd (List.range' (tau_mn + 1) (tau_mx - (tau_mn + 1)))
      tau_mn (cmnd.getD tau_mn 0)
    if p.2 < 1 / 2 then some p.1 else none

/-- Rust `PitchDetector::parabolic_interpolation`. -/
def parabolic_interpolation (cmnd : List ℚ) (tau : ℕ) : ℚ :=
  if tau = 0 ∨ cmnd.length - 1 ≤ tau then (tau : ℚ)
  else
    let s0 := cmnd.getD (tau - 1) 0
    let s1 := cmnd.getD tau 0
    let s2 := cmnd.getD (tau + 1) 0
    let denominator := 2 * (s0 - 2 * s1 + s2)
    if |denominator| < 1 / 10 ^ 10 then (tau : ℚ)
    else (tau : ℚ) + max (-1) (min ((s0 - s2) / denominator) 1)

/-- Rust `PitchDetector::detect`: the full YIN pipeline. -/
def detect (d : PitchDetector) (samples : List ℚ) : Option PitchResult :=
  if samples.length < 2 then none
  else if d.tau_max samples ≤ d.tau_min ∨
      samples.length / 2 ≤ d.tau_max samples then none
  else
    let diff := difference_function samples (d.tau_max samples)
    let cmnd := cumulative_mean_normalized_difference diff
    match find_threshold_crossing cmnd d.threshold d.tau_min (d.tau_max samples) with
    | none => none
    | some tau =>
      let refined_tau := parabolic_interpolation cmnd tau
      some { frequency := (d.sample_rate : ℚ) / refined_tau,
             confidence := 1 - min (cmnd.getD tau 0) 1 }

end PitchDetector

namespace PitchDetector

theorem difference_function_length (samples : List ℚ) (mt : ℕ) :
    (difference_function samples mt).length = mt + 1 := by
  simp [difference_function]

theorem cmnd_length (diff : List ℚ) :
    (cumulative_mean_normalized_difference diff).length = diff.length := by
  simp [cumulative_mean_normalized_difference]

theorem cmnd_getD_of_lt {diff : List ℚ} {t : ℕ} (ht : t < diff.length) :
    (cumulative_mean_normalized_difference diff).getD t 0 = cmnd_at diff t := by
  rw [cumulative_mean_normalized_difference, List.getD_eq_getElem?_getD,
    List.getElem?_map, List.getElem?_range ht]
  rfl

theorem getD_zero_of_all_zero {l : List ℚ} (h : ∀ x ∈ l, x = 0) (j : ℕ) :
    l.getD j 0 = 0 := by
  rw [List.getD_eq_getElem?_getD]
  cases hj : l[j]? with
  | none => rfl
  | some v =>
    have hv : v ∈ l := List.getElem?_mem hj
    simp [h v hv]

theorem diff_sum_silence {samples : List ℚ} (h : ∀ x ∈ samples, x = 0)
    (tau w : ℕ) : diff_sum samples tau w = 0 := by
  rw [diff_sum]
  apply List.sum_eq_zero
  intro x hx
  rcases List.mem_map.mp hx with ⟨j, _, rfl⟩
  rw [getD_zero_of_all_zero h, getD_zero_of_all_zero h]
  norm_num

theorem difference_function_silence_getD {samples : List ℚ}
    (h : ∀ x ∈ samples, x = 0) (mt t : ℕ) :
    (difference_function samples mt).getD t 0 = 0 := by
  apply getD_zero_of_all_zero
  intro x hx
  rcases List.mem_map.mp hx with ⟨tau, _, rfl⟩
  by_cases h0 : tau = 0
  · simp [h0]
  · simp only [if_neg h0]
    exact diff_sum_silence h tau (samples.length - mt)

theorem running_sum_zero {diff : List ℚ} (h : ∀ j, diff.getD j 0 = 0)
    (tau : ℕ) : running_sum diff tau = 0 := by
  rw [running_sum]
  apply List.sum_eq_zero
  intro x hx
  rcases List.mem_map.mp hx with ⟨k, _, rfl⟩
  exact h (k + 1)

theorem cmnd_at_one_of_zero_diff {diff : List ℚ} (h : ∀ j, diff.getD j 0 = 0)
    (t : ℕ) : cmnd_at diff t = 1 := by
  rw [cmnd_at]
  by_cases h0 : t = 0
  · simp [h0]
  · rw [if_neg h0, running_sum_zero h t]
    norm_num

theorem firstBelow_none {cmnd : List ℚ} {thr : ℚ} {l : List ℕ}
    (h : ∀ t ∈ l, ¬ cmnd.getD t 0 < thr) : firstBelow cmnd thr l = none := by
  induction l with
  | nil => rfl
  | cons t rest ih =>
    rw [firstBelow, if_neg (h t (List.mem_cons_self t rest))]
    exact ih fun u hu => h u (List.mem_cons_of_mem t hu)

theorem dipLoop_const {cmnd : List ℚ} {mv : ℚ} {l : List ℕ}
    (h : ∀ t ∈ l, cmnd.getD t 0 = mv) :
    ∀ mt : ℕ, dipLoop cmnd l mt mv = mt := by
  induction l with
  | nil => intro mt; rfl
  | cons t rest ih =>
    intro mt
    have ht := h t (List.mem_cons_self t rest)
    rw [dipLoop]
    simp only [ht, lt_self_iff_false, if_false]
    rw [if_neg (by linarith)]
    exact ih (fun u hu => h u (List.mem_cons_of_mem t hu)) mt

theorem argminLoop_const {cmnd : List ℚ} {mv : ℚ} {l : List ℕ}
    (h : ∀ t ∈ l, ¬ cmnd.getD t 0 < mv) :
    ∀ mt : ℕ, argminLoop cmnd l mt mv = (mt, mv) := by
  induction l with
  | nil => intro mt; rfl
  | cons t rest ih =>
    intro mt
    rw [argminLoop, if_neg (h t (List.mem_cons_self t rest))]
    exact ih (fun u hu => h u (List.mem_cons_of_mem t hu)) mt

/-- On silence the whole CMND vector is 1 at every in-range lag. -/
theorem cmnd_silence_getD {samples : List ℚ} (h : ∀ x ∈ samples, x = 0)
    {mt t : ℕ} (ht : t ≤ mt) :
    (cumulative_mean_normalized_difference
      (difference_function samples mt)).getD t 0 = 1 := by
  have hlen : t < (difference_function samples mt).length := by
    rw [difference_function_length]; omega
  rw [cmnd_getD_of_lt hlen]
  exact cmnd_at_one_of_zero_diff (difference_function_silence_getD h mt) t

end PitchDetector

/-- C7 (amended). For every buffer consisting entirely of zero samples,
of any length, and every detector configuration whose threshold is at
most 1 (the default is 0.1), `detect` returns no-detection: every CMND
entry is 1, so no lag crosses the threshold and the fallback global
minimum of 1 fails the `< 0.5` acceptance test. (With a threshold above
1 the code does report a detection on silence.) -/
theorem silence_no_detection_threshold_le_one (d : PitchDetector)
    (samples : List ℚ) (hthr : d.threshold ≤ 1)
    (hz : ∀ x ∈ samples, x = 0) :
    PitchDetector.detect d samples = none := by
  rw [PitchDetector.detect]
  split_ifs with h1 h2
  · rfl
  · rfl
  · have hmn : d.tau_min < d.tau_max samples := by
      rcases not_or.mp h2 with ⟨ha, _⟩
      omega
    have hfind : PitchDetector.find_threshold_crossing
        (PitchDetector.cumulative_mean_normalized_difference
          (PitchDetector.difference_function samples (d.tau_max samples)))
        d.threshold d.tau_min (d.tau_max samples) = none := by
      rw [PitchDetector.find_threshold_crossing]
      have hone : ∀ t, t ≤ d.tau_max samples →
          (PitchDetector.cumulative_mean_normalized_difference
            (PitchDetector.difference_function samples (d.tau_max samples))).getD t 0 = 1 :=
        fun t ht => PitchDetector.cmnd_silence_getD hz ht
      have hfb : PitchDetector.firstBelow
          (PitchDetector.cumulative_mean_normalized_difference
            (PitchDetector.difference_function samples (d.tau_max samples)))
          d.threshold (List.range' d.tau_min (d.tau_max samples - d.tau_min)) = none := by
        apply PitchDetector.firstBelow_none
        intro t htl
        rcases List.mem_range'.mp htl with ⟨_, hlt⟩
        rw [hone t (by omega)]
        exact not_lt.mpr hthr
      rw [hfb]
      have hinit := hone d.tau_min (le_of_lt hmn)
      rw [hinit]
      have hmin : PitchDetector.argminLoop
          (PitchDetector.cumulative_mean_normalized_difference
            (PitchDetector.difference_function samples (d.tau_max samples)))
          (List.range' (d.tau_min + 1) (d.tau_max samples - (d.tau_min + 1)))
          d.tau_min 1 = (d.tau_min, 1) := by
        apply PitchDetector.argminLoop_const
        intro t htl
        rcases List.mem_range'.mp htl with ⟨_, hlt⟩
        rw [hone t (by omega)]
        exact lt_irrefl 1
      simp only [hmin]
      norm_num
    simp only [hfind]

namespace PitchDetector

theorem rustCastUsize_natCast (n : ℕ) : rustCastUsize (n : ℚ) = n := by
  rw [rustCastUsize]
  rcases Nat.eq_zero_or_pos n with h0 | hpos
  · subst h0; simp
  · rw [if_neg (not_le.mpr (by exact_mod_cast hpos)), Int.floor_natCast]
    exact Int.toNat_ofNat n

theorem tau_min_eq_of {d : PitchDetector} {k : ℕ}
    (h : (d.sample_rate : ℚ) / d.max_frequency = (k : ℚ)) :
    d.tau_min = k := by
  rw [tau_min, h, rustCastUsize_natCast]

theorem tau_max_eq_of {d : PitchDetector} {samples : List ℚ} {k : ℕ}
    (h : min ((d.sample_rate : ℚ) / d.min_frequency)
      ((samples.length / 2 : ℕ) : ℚ) = (k : ℚ)) :
    d.tau_max samples = k := by
  rw [tau_max, h, rustCastUsize_natCast]

/-- On silence, with a (misconfigured) detection threshold above 1, the
first scanned lag `tau_min` crosses the threshold and survives the dip
descent and parabolic refinement unchanged, so `detect` reports
`sample_rate / tau_min` at confidence 0. -/
theorem detect_silence_high_threshold (d : PitchDetector) (samples : List ℚ)
    (hz : ∀ x ∈ samples, x = 0) (hthr : 1 < d.threshold)
    (h2 : ¬ samples.length < 2)
    (hg : ¬ (d.tau_max samples ≤ d.tau_min ∨
      samples.length / 2 ≤ d.tau_max samples)) :
    detect d samples =
      some { frequency := (d.sample_rate : ℚ) / (d.tau_min : ℚ),
             confidence := 0 } := by
  rw [detect, if_neg h2, if_neg hg]
  have hmn : d.tau_min < d.tau_max samples := by
    rcases not_or.mp hg with ⟨ha, _⟩
    omega
  set C := cumulative_mean_normalized_difference
    (difference_function samples (d.tau_max samples)) with hC
  have hone : ∀ t, t ≤ d.tau_max samples → C.getD t 0 = 1 := fun t ht =>
    cmnd_silence_getD hz ht
  have hCl : C.length = d.tau_max samples + 1 := by
    rw [hC, cmnd_length, difference_function_length]
  have hfb : firstBelow C d.threshold
      (List.range' d.tau_min (d.tau_max samples - d.tau_min)) =
      some d.tau_min := by
    have hsplit : d.tau_max samples - d.tau_min =
        (d.tau_max samples - d.tau_min - 1) + 1 := by omega
    rw [hsplit, List.range'_succ, firstBelow,
      if_pos (by rw [hone d.tau_min (le_of_lt hmn)]; exact hthr)]
  have hdip : dipLoop C
      (List.range' (d.tau_min + 1) (d.tau_max samples - (d.tau_min + 1)))
      d.tau_min (C.getD d.tau_min 0) = d.tau_min := by
    rw [hone d.tau_min (le_of_lt hmn)]
    apply dipLoop_const
    intro t htl
    rcases List.mem_range'.mp htl with ⟨_, hlt⟩
    exact hone t (by omega)
  have hfind : find_threshold_crossing C d.threshold d.tau_min
      (d.tau_max samples) = some d.tau_min := by
    rw [find_threshold_crossing, hfb]
    dsimp only
    rw [hdip]
  have hpar : parabolic_interpolation C d.tau_min = (d.tau_min : ℚ) := by
    rw [parabolic_interpolation]
    by_cases h0 : d.tau_min = 0 ∨ C.length - 1 ≤ d.tau_min
    · rw [if_pos h0]
    · rw [if_neg h0]
      push_neg at h0
      have hlb : 1 ≤ d.tau_min := by omega
      have hub : d.tau_min + 1 ≤ d.tau_max samples := by omega
      rw [hone (d.tau_min - 1) (by omega), hone d.tau_min (by omega),
        hone (d.tau_min + 1) (by omega)]
      norm_num
  simp only [hfind, hpar, hone d.tau_min (le_of_lt hmn)]
  norm_num

end PitchDetector

/-- C7 (counterexample). With threshold 2 (the builder accepts any
threshold), sample rate 10 Hz, frequency range 2–5 Hz and a silent
12-sample buffer, every CMND entry is 1, which is below the threshold, so
`detect` reports a detection on silence: the claim fails for detector
configurations with threshold above 1. -/
theorem silence_detected_with_high_threshold :
    PitchDetector.detect
      { sample_rate := 10, threshold := 2, min_frequency := 2, max_frequency := 5 }
      (List.replicate 12 (0 : ℚ)) ≠ none := by
  have h := PitchDetector.detect_silence_high_threshold
    { sample_rate := 10, threshold := 2, min_frequency := 2, max_frequency := 5 }
    (List.replicate 12 (0 : ℚ))
    (fun x hx => List.eq_of_mem_replicate hx)
    (by norm_num)
    (by simp)
    ?_
  · rw [h]
    simp
  · have hmin : PitchDetector.tau_min
        { sample_rate := 10, threshold := 2, min_frequency := 2, max_frequency := 5 } = 2 :=
      PitchDetector.tau_min_eq_of (by push_cast; norm_num)
    have hmax : PitchDetector.tau_max
        { sample_rate := 10, threshold := 2, min_frequency := 2, max_frequency := 5 }
        (List.replicate 12 (0 : ℚ)) = 5 :=
      PitchDetector.tau_max_eq_of (by simp; norm_num [min_def])
    rw [hmin, hmax]
    simp

/-- C7 witness: the amended theorem at the default threshold 0.1 and a
4096-sample silent buffer at 44100 Hz. -/
theorem silence_no_detection_threshold_le_one_witness :
    (1 / 10 : ℚ) ≤ 1 ∧
    PitchDetector.detect (PitchDetector.new 44100)
      (List.replicate 4096 (0 : ℚ)) = none :=
  ⟨by norm_num,
    silence_no_detection_threshold_le_one (PitchDetector.new 44100)
      (List.replicate 4096 (0 : ℚ)) (by norm_num [PitchDetector.new])
      (fun x hx => List.eq_of_mem_replicate hx)⟩

namespace PitchDetector

theorem getD_nonneg_of_forall {l : List ℚ} (h : ∀ x ∈ l, 0 ≤ x) (j : ℕ) :
    0 ≤ l.getD j 0 := by
  rw [List.getD_eq_getElem?_getD]
  cases hj : l[j]? with
  | none => exact le_refl 0
  | some v => exact h v (List.getElem?_mem hj)

theorem diff_sum_nonneg (samples : List ℚ) (tau w : ℕ) :
    0 ≤ diff_sum samples tau w := by
  rw [diff_sum]
  apply List.sum_nonneg
  intro x hx
  rcases List.mem_map.mp hx with ⟨j, _, rfl⟩
  exact mul_self_nonneg _

theorem difference_function_getD_nonneg (samples : List ℚ) (mt t : ℕ) :
    0 ≤ (difference_function samples mt).getD t 0 := by
  apply getD_nonneg_of_forall
  intro x hx
  rcases List.mem_map.mp hx with ⟨tau, _, rfl⟩
  by_cases h0 : tau = 0
  · simp [h0]
  · rw [if_neg h0]
    exact diff_sum_nonneg samples tau (samples.length - mt)

theorem cmnd_at_nonneg {diff : List ℚ} (hd : ∀ j, 0 ≤ diff.getD j 0)
    (t : ℕ) : 0 ≤ cmnd_at diff t := by
  rw [cmnd_at]
  split_ifs with h0 hrs
  · norm_num
  · exact div_nonneg (mul_nonneg (hd t) (Nat.cast_nonneg t)) (le_of_lt hrs)
  · norm_num

theorem cmnd_getD_nonneg {diff : List ℚ} (hd : ∀ j, 0 ≤ diff.getD j 0)
    (t : ℕ) : 0 ≤ (cumulative_mean_normalized_difference diff).getD t 0 := by
  apply getD_nonneg_of_forall
  intro x hx
  rcases List.mem_map.mp hx with ⟨tau, _, rfl⟩
  exact cmnd_at_nonneg hd tau

theorem parabolic_interpolation_nonneg (cmnd : List ℚ) (tau : ℕ) :
    0 ≤ parabolic_interpolation cmnd tau := by
  rw [parabolic_interpolation]
  by_cases h1 : tau = 0 ∨ cmnd.length - 1 ≤ tau
  · rw [if_pos h1]
    positivity
  · rw [if_neg h1]
    push_neg at h1
    have ht : 1 ≤ (tau : ℚ) := by
      exact_mod_cast Nat.one_le_iff_ne_zero.mpr h1.1
    have key : ∀ a : ℚ, 0 ≤ (tau : ℚ) + max (-1) (min a 1) := fun a => by
      have := le_max_left (-1 : ℚ) (min a 1)
      linarith
    dsimp only
    split_ifs
    · positivity
    · exact key _

end PitchDetector

/-- C8 (counterexample). With max_frequency 20 Hz above the 10 Hz sample
rate, `tau_min` is 0, and with threshold 2 on a silent buffer the chosen
lag is 0, so the reported frequency is `sample_rate / 0` — `+∞` in `f32`,
`0` in the ℚ model — in either case not a strictly positive finite
frequency, refuting the claim for such configurations. -/
theorem detect_zero_frequency_counterexample :
    PitchDetector.detect
      { sample_rate := 10, threshold := 2, min_frequency := 2, max_frequency := 20 }
      (List.replicate 12 (0 : ℚ)) =
      some { frequency := 0, confidence := 0 } ∧
    ¬ (0 : ℚ) < 0 := by
  refine ⟨?_, by norm_num⟩
  have hmin : PitchDetector.tau_min
      { sample_rate := 10, threshold := 2, min_frequency := 2, max_frequency := 20 } = 0 := by
    rw [PitchDetector.tau_min,
      show (((10 : ℕ) : ℚ) / (20 : ℚ)) = 1 / 2 by norm_num,
      rustCastUsize, if_neg (by norm_num),
      show ⌊(1 / 2 : ℚ)⌋ = 0 from by
        rw [Int.floor_eq_zero_iff]
        constructor <;> norm_num]
    rfl
  have hmax : PitchDetector.tau_max
      { sample_rate := 10, threshold := 2, min_frequency := 2, max_frequency := 20 }
      (List.replicate 12 (0 : ℚ)) = 5 :=
    PitchDetector.tau_max_eq_of (by simp; norm_num [min_def])
  have h := PitchDetector.detect_silence_high_threshold
    { sample_rate := 10, threshold := 2, min_frequency := 2, max_frequency := 20 }
    (List.replicate 12 (0 : ℚ))
    (fun x hx => List.eq_of_mem_replicate hx)
    (by norm_num)
    (by simp)
    (by rw [hmin, hmax]; simp)
  rw [h, hmin]
  norm_num

/-- C8 (amended). Whenever `detect` returns a result, the confidence lies
in `[0, 1]` and the frequency is nonnegative; strict positivity of the
frequency fails only in the degenerate case where the chosen lag refines
to 0 (reachable only with threshold above 1 and `tau_min = 0`), where the
code divides the sample rate by zero. -/
theorem detect_result_bounds (d : PitchDetector) (samples : List ℚ)
    (r : PitchResult) (h : PitchDetector.detect d samples = some r) :
    0 ≤ r.confidence ∧ r.confidence ≤ 1 ∧ 0 ≤ r.frequency := by
  rw [PitchDetector.detect] at h
  split_ifs at h
  dsimp only at h
  cases hf : PitchDetector.find_threshold_crossing
      (PitchDetector.cumulative_mean_normalized_difference
        (PitchDetector.difference_function samples (PitchDetector.tau_max d samples)))
      d.threshold (PitchDetector.tau_min d) (PitchDetector.tau_max d samples) with
  | none =>
    rw [hf] at h
    exact absurd h (by simp)
  | some tau =>
    rw [hf] at h
    dsimp only at h
    rw [Option.some_inj] at h
    subst h
    have hc : 0 ≤ (PitchDetector.cumulative_mean_normalized_difference
        (PitchDetector.difference_function samples
          (PitchDetector.tau_max d samples))).getD tau 0 :=
      PitchDetector.cmnd_getD_nonneg
        (PitchDetector.difference_function_getD_nonneg samples _) tau
    refine ⟨?_, ?_, ?_⟩
    · have : min ((PitchDetector.cumulative_mean_normalized_difference
          (PitchDetector.difference_function samples
            (PitchDetector.tau_max d samples))).getD tau 0) 1 ≤ 1 :=
        min_le_right _ _
      dsimp only
      linarith
    · have : 0 ≤ min ((PitchDetector.cumulative_mean_normalized_difference
          (PitchDetector.difference_function samples
            (PitchDetector.tau_max d samples))).getD tau 0) 1 :=
        le_min hc (by norm_num)
      dsimp only
      linarith
    · exact div_nonneg (Nat.cast_nonneg _)
        (PitchDetector.parabolic_interpolation_nonneg _ tau)

/-- C8 witness: the bounds at a configuration where `detect` does return
a result (threshold 2 on a silent 12-sample buffer at 10 Hz). -/
theorem detect_result_bounds_witness :
    PitchDetector.detect
      { sample_rate := 10, threshold := 2, min_frequency := 2, max_frequency := 5 }
      (List.replicate 12 (0 : ℚ)) = some { frequency := 5, confidence := 0 } ∧
    (0 ≤ (0 : ℚ) ∧ (0 : ℚ) ≤ 1 ∧ 0 ≤ (5 : ℚ)) := by
  have hmin : PitchDetector.tau_min
      { sample_rate := 10, threshold := 2, min_frequency := 2, max_frequency := 5 } = 2 :=
    PitchDetector.tau_min_eq_of (by push_cast; norm_num)
  have hmax : PitchDetector.tau_max
      { sample_rate := 10, threshold := 2, min_frequency := 2, max_frequency := 5 }
      (List.replicate 12 (0 : ℚ)) = 5 :=
    PitchDetector.tau_max_eq_of (by simp; norm_num [min_def])
  have hsome := PitchDetector.detect_silence_high_threshold
    { sample_rate := 10, threshold := 2, min_frequency := 2, max_frequency := 5 }
    (List.replicate 12 (0 : ℚ))
    (fun x hx => List.eq_of_mem_replicate hx)
    (by norm_num)
    (by simp)
    (by rw [hmin, hmax]; simp)
  rw [hmin] at hsome
  have hsome5 : PitchDetector.detect
      { sample_rate := 10, threshold := 2, min_frequency := 2, max_frequency := 5 }
      (List.replicate 12 (0 : ℚ)) = some { frequency := 5, confidence := 0 } := by
    rw [hsome]
    norm_num
  exact ⟨hsome5, detect_result_bounds _ _ _ hsome5⟩

theorem rustCastUsize_mono {q r : ℚ} (h : q ≤ r) :
    rustCastUsize q ≤ rustCastUsize r := by
  rw [rustCastUsize, rustCastUsize]
  by_cases hq : q ≤ 0
  · rw [if_pos hq]
    exact Nat.zero_le _
  · rw [if_neg hq, if_neg (fun hr => hq (le_trans h hr))]
    exact Int.toNat_le_toNat (Int.floor_le_floor h)

/-- C9 (amended). `detect` returns no-detection (an explicit `none`,
never a panic) whenever the input has fewer than 2 samples, or the tau
search window collapses (`tau_max ≤ tau_min`, or `tau_max` exceeds half
the buffer length); and a misconfiguration with
`min_frequency ≥ max_frequency > 0` makes `detect` always return
no-detection (positivity of `max_frequency` is required: a negative
`max_frequency` saturates `tau_min` to 0 and detection can succeed). -/
theorem detect_none_on_degenerate_config (d : PitchDetector) (samples : List ℚ) :
    (samples.length < 2 ∨ d.tau_max samples ≤ d.tau_min ∨
        samples.length / 2 < d.tau_max samples →
      PitchDetector.detect d samples = none) ∧
    (0 < d.max_frequency → d.max_frequency ≤ d.min_frequency →
      PitchDetector.detect d samples = none) := by
  constructor
  · intro h
    rw [PitchDetector.detect]
    split_ifs with h1 h2
    · rfl
    · rfl
    · exfalso
      rcases h with h | h | h
      · exact h1 h
      · exact h2 (Or.inl h)
      · exact h2 (Or.inr (le_of_lt h))
  · intro hpos hle
    rw [PitchDetector.detect]
    split_ifs with h1 h2
    · rfl
    · rfl
    · exfalso
      apply h2
      left
      have hdiv : (d.sample_rate : ℚ) / d.min_frequency ≤
          (d.sample_rate : ℚ) / d.max_frequency :=
        div_le_div_of_nonneg_left (Nat.cast_nonneg _) hpos hle
      exact rustCastUsize_mono (le_trans (min_le_left _ _) hdiv)

/-- C9 witness: a one-sample buffer returns `none`, and a configuration
with `min_frequency = 60 ≥ max_frequency = 50 > 0` returns `none` on a
30-sample buffer. -/
theorem detect_none_on_degenerate_config_witness :
    ((List.replicate 1 (0 : ℚ)).length < 2) ∧
    PitchDetector.detect (PitchDetector.new 44100)
      (List.replicate 1 (0 : ℚ)) = none ∧
    ((0 : ℚ) < 50 ∧ (50 : ℚ) ≤ 60) ∧
    PitchDetector.detect
      { sample_rate := 100, threshold := 1 / 10, min_frequency := 60, max_frequency := 50 }
      (List.replicate 30 (0 : ℚ)) = none :=
  ⟨by simp,
    (detect_none_on_degenerate_config (PitchDetector.new 44100)
      (List.replicate 1 (0 : ℚ))).1 (Or.inl (by simp)),
    ⟨by norm_num, by norm_num⟩,
    (detect_none_on_degenerate_config
      { sample_rate := 100, threshold := 1 / 10, min_frequency := 60, max_frequency := 50 }
      (List.replicate 30 (0 : ℚ))).2 (by norm_num) (by norm_num)⟩

namespace PitchDetector

theorem difference_function_getD_of_pos {samples : List ℚ} {mt t : ℕ}
    (h0 : t ≠ 0) (hle : t ≤ mt) :
    (difference_function samples mt).getD t 0 =
      diff_sum samples t (samples.length - mt) := by
  rw [difference_function, List.getD_eq_getElem?_getD, List.getElem?_map,
    List.getElem?_range (by omega)]
  simp [h0]

end PitchDetector

/-- A 12-sample buffer alternating `+1, -1`: a pure period-2 signal. -/
def altBuf : List ℚ :=
  (List.range 12).map (fun j => if j % 2 = 0 then 1 else -1)

theorem altBuf_getD (j : ℕ) :
    altBuf.getD j 0 =
      if j < 12 then (if j % 2 = 0 then (1 : ℚ) else -1) else 0 := by
  rw [altBuf, List.getD_eq_getElem?_getD, List.getElem?_map]
  by_cases hj : j < 12
  · rw [List.getElem?_range hj]
    simp [hj]
  · rw [List.getElem?_eq_none (by simpa using not_lt.mp hj)]
    simp [hj]

theorem altBuf_length : altBuf.length = 12 := by
  simp [altBuf]

theorem altBuf_diff_sum_odd {tau : ℕ} (h : tau = 1 ∨ tau = 3 ∨ tau = 5) :
    PitchDetector.diff_sum altBuf tau 7 = 28 := by
  rcases h with rfl | rfl | rfl <;>
    · rw [PitchDetector.diff_sum,
        show List.range 7 = [0, 1, 2, 3, 4, 5, 6] from by decide]
      simp only [List.map_cons, List.map_nil, altBuf_getD]
      norm_num

theorem altBuf_diff_sum_even {tau : ℕ} (h : tau = 2 ∨ tau = 4) :
    PitchDetector.diff_sum altBuf tau 7 = 0 := by
  rcases h with rfl | rfl <;>
    · rw [PitchDetector.diff_sum,
        show List.range 7 = [0, 1, 2, 3, 4, 5, 6] from by decide]
      simp only [List.map_cons, List.map_nil, altBuf_getD]
      norm_num

/-- C9 (counterexample). With `min_frequency = 2 ≥ max_frequency = -3`
(the builder accepts any floats) at the default threshold 0.1, the
saturating cast sends the negative `tau_min` to 0, the window survives,
and a period-2 buffer is detected at full confidence: a misconfiguration
with `min_frequency ≥ max_frequency` does not always yield no-detection. -/
theorem detect_some_with_min_ge_max_frequency :
    ({ sample_rate := 10, threshold := 1 / 10, min_frequency := 2,
        max_frequency := -3 } : PitchDetector).max_frequency ≤
      ({ sample_rate := 10, threshold := 1 / 10, min_frequency := 2,
          max_frequency := -3 } : PitchDetector).min_frequency ∧
    PitchDetector.detect
      { sample_rate := 10, threshold := 1 / 10, min_frequency := 2,
        max_frequency := -3 } altBuf =
      some { frequency := 100 / 19, confidence := 1 } ∧
    PitchDetector.detect
      { sample_rate := 10, threshold := 1 / 10, min_frequency := 2,
        max_frequency := -3 } altBuf ≠ none := by
  have hsome : PitchDetector.detect
      { sample_rate := 10, threshold := 1 / 10, min_frequency := 2,
        max_frequency := -3 } altBuf =
      some { frequency := 100 / 19, confidence := 1 } := by
    have hmin : PitchDetector.tau_min
        { sample_rate := 10, threshold := 1 / 10, min_frequency := 2,
          max_frequency := -3 } = 0 := by
      rw [PitchDetector.tau_min, rustCastUsize, if_pos ?_]
      have : ((10 : ℕ) : ℚ) / (-3 : ℚ) = -(10 / 3) := by push_cast; ring
      rw [this]
      norm_num
    have hmax : PitchDetector.tau_max
        { sample_rate := 10, threshold := 1 / 10, min_frequency := 2,
          max_frequency := -3 } altBuf = 5 :=
      PitchDetector.tau_max_eq_of (by
        rw [altBuf_length]
        push_cast
        norm_num [min_def])
    rw [PitchDetector.detect, if_neg (by rw [altBuf_length]; norm_num), hmin, hmax,
      if_neg (by rw [altBuf_length]; omega)]
    dsimp only
    set D := PitchDetector.difference_function altBuf 5 with hD
    set C := PitchDetector.cumulative_mean_normalized_difference D with hC
    have hDlen : D.length = 6 := by
      rw [hD, PitchDetector.difference_function_length]
    have hD1 : D.getD 1 0 = 28 := by
      rw [hD, PitchDetector.difference_function_getD_of_pos (by norm_num) (by norm_num),
        altBuf_length]
      exact altBuf_diff_sum_odd (Or.inl rfl)
    have hD2 : D.getD 2 0 = 0 := by
      rw [hD, PitchDetector.difference_function_getD_of_pos (by norm_num) (by norm_num),
        altBuf_length]
      exact altBuf_diff_sum_even (Or.inl rfl)
    have hD3 : D.getD 3 0 = 28 := by
      rw [hD, PitchDetector.difference_function_getD_of_pos (by norm_num) (by norm_num),
        altBuf_length]
      exact altBuf_diff_sum_odd (Or.inr (Or.inl rfl))
    have hrs1 : PitchDetector.running_sum D 1 = 28 := by
      rw [PitchDetector.running_sum, show List.range 1 = [0] from rfl]
      simp only [List.map_cons, List.map_nil, List.sum_cons, List.sum_nil,
        Nat.reduceAdd]
      rw [hD1]
      norm_num
    have hrs2 : PitchDetector.running_sum D 2 = 28 := by
      rw [PitchDetector.running_sum, show List.range 2 = [0, 1] from rfl]
      simp only [List.map_cons, List.map_nil, List.sum_cons, List.sum_nil,
        Nat.reduceAdd]
      rw [hD1, hD2]
      norm_num
    have hrs3 : PitchDetector.running_sum D 3 = 56 := by
      rw [PitchDetector.running_sum, show List.range 3 = [0, 1, 2] from rfl]
      simp only [List.map_cons, List.map_nil, List.sum_cons, List.sum_nil,
        Nat.reduceAdd]
      rw [hD1, hD2, hD3]
      norm_num
    have hC0 : C.getD 0 0 = 1 := by
      rw [hC, PitchDetector.cmnd_getD_of_lt (by rw [hDlen]; norm_num)]
      rfl
    have hC1 : C.getD 1 0 = 1 := by
      rw [hC, PitchDetector.cmnd_getD_of_lt (by rw [hDlen]; norm_num),
        PitchDetector.cmnd_at, if_neg (by norm_num),
        if_pos (by rw [hrs1]; norm_num), hrs1, hD1]
      norm_num
    have hC2 : C.getD 2 0 = 0 := by
      rw [hC, PitchDetector.cmnd_getD_of_lt (by rw [hDlen]; norm_num),
        PitchDetector.cmnd_at, if_neg (by norm_num),
        if_pos (by rw [hrs2]; norm_num), hrs2, hD2]
      norm_num
    have hC3 : C.getD 3 0 = 3 / 2 := by
      rw [hC, PitchDetector.cmnd_getD_of_lt (by rw [hDlen]; norm_num),
        PitchDetector.cmnd_at, if_neg (by norm_num),
        if_pos (by rw [hrs3]; norm_num), hrs3, hD3]
      norm_num
    have hClen : C.length = 6 := by
      rw [hC, PitchDetector.cmnd_length, hDlen]
    have hfb : PitchDetector.firstBelow C (1 / 10) [0, 1, 2, 3, 4] = some 2 := by
      rw [PitchDetector.firstBelow, if_neg (by rw [hC0]; norm_num),
        PitchDetector.firstBelow, if_neg (by rw [hC1]; norm_num),
        PitchDetector.firstBelow, if_pos (by rw [hC2]; norm_num)]
    have hdip : PitchDetector.dipLoop C [3, 4] 2 0 = 2 := by
      rw [PitchDetector.dipLoop]
      rw [hC3, if_neg (by norm_num), if_pos (by norm_num)]
    have hfind : PitchDetector.find_threshold_crossing C (1 / 10) 0 5 = some 2 := by
      rw [PitchDetector.find_threshold_crossing,
        show List.range' 0 (5 - 0) = [0, 1, 2, 3, 4] from by decide, hfb]
      dsimp only
      rw [show List.range' (2 + 1) (5 - (2 + 1)) = [3, 4] from by decide, hC2, hdip]
    have hpar : PitchDetector.parabolic_interpolation C 2 = 19 / 10 := by
      rw [PitchDetector.parabolic_interpolation, if_neg (by rw [hClen]; omega)]
      dsimp only
      rw [show (2 : ℕ) - 1 = 1 from rfl, show (2 : ℕ) + 1 = 3 from rfl,
        hC1, hC2, hC3]
      rw [if_neg (by norm_num)]
      push_cast
      norm_num [min_def, max_def]
    rw [hfind]
    dsimp only
    rw [hpar, hC2]
    push_cast
    norm_num [min_def]
  exact ⟨by norm_num, hsome, by rw [hsome]; simp⟩
